import Mathlib

/-!
Verification of `src/convert-time-table.js`: a script that reshapes a
wide-format timesheet table (one row per ticket, one column per date) into a
long format (Date, Ticket, Time Spent), filtering out cells whose
`parseFloat` value is NaN or not strictly positive.

The embedding models:
- an input row as an ordered association list from column name to cell
  string (a `csv-parser` row object, key order = header order);
- JavaScript property access `row[key]` as `Option`-valued lookup
  (`none` = `undefined`);
- JavaScript `parseFloat` over exact rationals: leading-whitespace skip,
  optional sign, the `Infinity` literal or a decimal literal
  (digits, optional fraction, optional exponent), longest valid prefix,
  `none` for NaN.  A JavaScript number that is not NaN is either a finite
  value (`JsNum.num q`) or a signed infinity (`JsNum.inf`); rounding of
  finite decimal literals to IEEE doubles is not modelled, so finite
  parses are exact rationals.
-/

/-- An input row: ordered mapping column-name → cell string, as produced by
`csv-parser` (keys in header order). -/
abbrev Row : Type := List (String × String)

/-- JavaScript property access `row[key]`: `none` models `undefined`. -/
def jsLookup (row : Row) (key : String) : Option String :=
  List.lookup key row

/-- A JavaScript number other than NaN: a finite (exact rational) value or a
signed infinity (`inf true` = +∞, `inf false` = −∞). -/
inductive JsNum where
  | num : ℚ → JsNum
  | inf : Bool → JsNum
  deriving Repr, DecidableEq

/-- Whether a (non-NaN) JavaScript number is finite. -/
def JsNum.isFinite : JsNum → Bool
  | .num _ => true
  | .inf _ => false

/-- The JavaScript comparison `x > 0` on a non-NaN number. -/
def jsGtZero : JsNum → Bool
  | .num q => decide (0 < q)
  | .inf pos => pos

/-- ASCII decimal digit test. -/
def isAsciiDigit (c : Char) : Bool :=
  '0' ≤ c && c ≤ '9'

/-- Numeric value of an ASCII digit character. -/
def digitVal (c : Char) : Nat :=
  c.toNat - '0'.toNat

/-- Value of a digit string read most-significant first. -/
def digitsToNat (ds : List Char) : Nat :=
  ds.foldl (fun n c => 10 * n + digitVal c) 0

/-- The exponent denoted by a trailing `e`/`E` exponent part, if one is
present at the head of the remaining characters; `0` otherwise (an
`e` not followed by digits is not part of the accepted prefix). -/
def parseExponent (cs : List Char) : Int :=
  match cs with
  | c :: rest =>
    if c == 'e' || c == 'E' then
      match rest with
      | '+' :: rest2 =>
        let ds := rest2.takeWhile isAsciiDigit
        if ds.isEmpty then 0 else (digitsToNat ds : Int)
      | '-' :: rest2 =>
        let ds := rest2.takeWhile isAsciiDigit
        if ds.isEmpty then 0 else -(digitsToNat ds : Int)
      | _ =>
        let ds := rest.takeWhile isAsciiDigit
        if ds.isEmpty then 0 else (digitsToNat ds : Int)
    else 0
  | [] => 0

/-- Parse an unsigned decimal literal prefix
(`DecimalDigits . DecimalDigits? ExponentPart?` or
`. DecimalDigits ExponentPart?`); `none` when no digit is present. -/
def parseUnsigned (cs : List Char) : Option ℚ :=
  let intDs := cs.takeWhile isAsciiDigit
  let rest1 := cs.dropWhile isAsciiDigit
  let fracDs :=
    match rest1 with
    | '.' :: t => t.takeWhile isAsciiDigit
    | _ => []
  let rest2 :=
    match rest1 with
    | '.' :: t => t.dropWhile isAsciiDigit
    | _ => rest1
  if intDs.isEmpty && fracDs.isEmpty then none
  else
    let mantNum : Nat := digitsToNat intDs * 10 ^ fracDs.length + digitsToNat fracDs
    let mantDen : Nat := 10 ^ fracDs.length
    let e := parseExponent rest2
    some (if 0 ≤ e then mkRat ((mantNum * 10 ^ e.toNat : Nat) : Int) mantDen
          else mkRat (mantNum : Int) (mantDen * 10 ^ (-e).toNat))

/-- Whether the characters start with the literal `Infinity`
(accepted by `parseFloat`, case-sensitive). -/
def hasInfinityPrefix (cs : List Char) : Bool :=
  match cs with
  | 'I' :: 'n' :: 'f' :: 'i' :: 'n' :: 'i' :: 't' :: 'y' :: _ => true
  | _ => false

/-- Parse an optional sign followed by `Infinity` or an unsigned decimal
literal. -/
def parseSigned (cs : List Char) : Option JsNum :=
  match cs with
  | '+' :: rest =>
    if hasInfinityPrefix rest then some (JsNum.inf true)
    else (parseUnsigned rest).map JsNum.num
  | '-' :: rest =>
    if hasInfinityPrefix rest then some (JsNum.inf false)
    else (parseUnsigned rest).map (fun q => JsNum.num (-q))
  | _ =>
    if hasInfinityPrefix cs then some (JsNum.inf true)
    else (parseUnsigned cs).map JsNum.num

/-- JavaScript whitespace stripped by `parseFloat` (ASCII portion). -/
def jsWhitespace (c : Char) : Bool :=
  c == ' ' || c == '\t' || c == '\n' || c == '\r' || c == '\x0b' || c == '\x0c'

/-- JavaScript `parseFloat`: skip leading whitespace, then take the longest
prefix that is a signed decimal literal or `Infinity`; `none` models NaN. -/
def jsParseFloat (s : String) : Option JsNum :=
  parseSigned (s.data.dropWhile jsWhitespace)

/-- An output record, mirroring the object pushed by `transposeData`:
`{ Date: date, Ticket: ticketName, 'Time Spent': parsedTimeSpent }`.
`Ticket` is `Option String` because `row[ticketHeader]` is `undefined`
(`none`) when the row lacks the key. -/
structure OutputRecord where
  Date : String
  Ticket : Option String
  TimeSpent : JsNum
  deriving Repr, DecidableEq

/-- `const ticketHeader = 'Ticket'` in the source. -/
def ticketHeader : String := "Ticket"

/-- `Object.keys(row)`: the key order of a row object. -/
def allHeadersOf (row : Row) : List String := row.map Prod.fst

/-- The date columns the transform scans: the first row's keys with
`'Ticket'` filtered out (`[]` for empty input, where the source returns
before deriving headers). -/
def dateHeadersOf (data : List Row) : List String :=
  match data with
  | [] => []
  | first :: _ => (allHeadersOf first).filter (fun header => header != ticketHeader)

/-- `parseFloat(row[date])`: property access then parse.  A missing key is
`undefined`, which `parseFloat` receives as the string `"undefined"`. -/
def parsedCell (row : Row) (date : String) : Option JsNum :=
  match jsLookup row date with
  | some s => jsParseFloat s
  | none => jsParseFloat "undefined"

/-- Whether the cell at `(row, date)` passes the source's filter
`!isNaN(parsedTimeSpent) && parsedTimeSpent > 0`. -/
def cellKeeps (row : Row) (date : String) : Bool :=
  match parsedCell row date with
  | some v => jsGtZero v
  | none => false

/-- The loop body for one `(row, date)` pair: the record pushed onto the
output, or `none` when the filter skips the cell. -/
def keepCell (row : Row) (date : String) : Option OutputRecord :=
  match parsedCell row date with
  | some v =>
    if jsGtZero v then
      some { Date := date, Ticket := jsLookup row ticketHeader, TimeSpent := v }
    else none
  | none => none

/-- The records pushed for one row of the input: the inner
`for (const date of dateHeaders)` loop. -/
def rowRecords (dateHeaders : List String) (row : Row) : List OutputRecord :=
  dateHeaders.filterMap (fun date => keepCell row date)

/-- `transposeData` from the source: empty input short-circuits to `[]`;
otherwise the date headers are derived from the first row and the nested
row/date loops push the filtered records in iteration order. -/
def transposeData (data : List Row) : List OutputRecord :=
  match data with
  | [] => []
  | first :: rest =>
    let dateHeaders := (allHeadersOf first).filter (fun header => header != ticketHeader)
    (first :: rest).flatMap (fun row => rowRecords dateHeaders row)

/-- A cell value as written by `csv-writer`: a string field, a numeric
field, or `undefined` for a missing object property. -/
inductive CellField where
  | str : String → CellField
  | num : JsNum → CellField
  | undef : CellField
  deriving Repr, DecidableEq

/-- One column of the `createObjectCsvWriter` configuration:
`{ id: ..., title: ... }`. -/
structure HeaderCol where
  id : String
  title : String
  deriving Repr, DecidableEq

/-- The fixed `header` array passed to `createObjectCsvWriter` in
`processCsv`. -/
def csvWriterHeader : List HeaderCol :=
  [⟨"Date", "Date"⟩, ⟨"Ticket", "Ticket"⟩, ⟨"Time Spent", "Time Spent"⟩]

/-- Property access on an output record by column id, as `csv-writer`
performs it when serialising a record. -/
def recordField (rec : OutputRecord) (id : String) : CellField :=
  if id = "Date" then CellField.str rec.Date
  else if id = "Ticket" then
    match rec.Ticket with
    | some t => CellField.str t
    | none => CellField.undef
  else if id = "Time Spent" then CellField.num rec.TimeSpent
  else CellField.undef

/-- The row `csv-writer` emits for one output record: the record's fields
in the order of the configured header ids. -/
def outputRow (rec : OutputRecord) : List CellField :=
  csvWriterHeader.map (fun col => recordField rec col.id)

/-- The pure content of the output table written by `processCsv`: the
title row followed by one row per transposed record, in order. -/
def processCsv (records : List Row) : List String × List (List CellField) :=
  let transposedData := transposeData records
  (csvWriterHeader.map (fun col => col.title),
   transposedData.map outputRow)

/-- The inner date loop of `transposeData` for the row at (0-based) index
`i`, with each emitted record tagged by its `(row index, date index)`
provenance. -/
def taggedRowRecords (i : Nat) (dateHeaders : List String) (row : Row) :
    List ((Nat × Nat) × OutputRecord) :=
  dateHeaders.enum.filterMap (fun p =>
    (keepCell row p.2).map (fun rec => ((i, p.1), rec)))

/-- The full nested iteration of `transposeData`, with each emitted record
tagged by its `(row index, date index)` provenance. -/
def taggedRecords (data : List Row) : List ((Nat × Nat) × OutputRecord) :=
  data.enum.flatMap (fun p => taggedRowRecords p.1 (dateHeadersOf data) p.2)

/-- Strict lexicographic order on provenance tags: earlier row first, then
earlier date column. -/
def tagLt (a b : (Nat × Nat) × OutputRecord) : Prop :=
  a.1.1 < b.1.1 ∨ (a.1.1 = b.1.1 ∧ a.1.2 < b.1.2)

/-- Spec scenario A input: two tickets over two dates. -/
def sampleA : List Row :=
  [[(ticketHeader, "T1"), ("2025-05-01", "2"), ("2025-05-02", "0")],
   [(ticketHeader, "T2"), ("2025-05-01", ""), ("2025-05-02", "3.5")]]

/-- A row whose `Ticket` value is the empty string. -/
def sampleEmptyTicket : List Row :=
  [[(ticketHeader, ""), ("d", "1")]]

/-- An input whose second row is missing the `d2` column of the first
row's header. -/
def sampleShort : List Row :=
  [[(ticketHeader, "T"), ("d1", "1"), ("d2", "2")],
   [(ticketHeader, "U"), ("d1", "3")]]

example : jsParseFloat "2h" = some (JsNum.num 2) := by decide
example : jsParseFloat "abc" = none := by decide
example : jsParseFloat "3.5" = some (JsNum.num (mkRat 7 2)) := by decide
example : jsParseFloat "" = none := by decide
example : jsParseFloat "-1" = some (JsNum.num (-1)) := by decide
example : jsParseFloat " 0 " = some (JsNum.num 0) := by decide
example : jsParseFloat "Infinity" = some (JsNum.inf true) := by decide
example : jsParseFloat "1e2" = some (JsNum.num 100) := by decide
example : jsParseFloat "2.5e-1" = some (JsNum.num (mkRat 1 4)) := by decide
example : jsParseFloat "." = none := by decide
example : jsParseFloat "5." = some (JsNum.num 5) := by decide
example : jsParseFloat ".5" = some (JsNum.num (mkRat 1 2)) := by decide
example : jsParseFloat "1e" = some (JsNum.num 1) := by decide
example : jsParseFloat "undefined" = none := by decide
example : jsParseFloat "0x10" = some (JsNum.num 0) := by decide

example :
    transposeData sampleA
      = [⟨"2025-05-01", some "T1", JsNum.num 2⟩,
         ⟨"2025-05-02", some "T2", JsNum.num (mkRat 7 2)⟩] := by decide

example :
    transposeData [[(ticketHeader, "T1"), ("2025-05-01", "-1")]] = [] := by decide

example :
    transposeData [[(ticketHeader, "T"), ("d", "Infinity")]]
      = [⟨"d", some "T", JsNum.inf true⟩] := by decide

lemma transposeData_eq_flatMap (data : List Row) :
    transposeData data
      = data.flatMap (fun row => rowRecords (dateHeadersOf data) row) := by
  cases data with
  | nil => rfl
  | cons first rest => rfl

lemma keepCell_some {row : Row} {d : String} {rec : OutputRecord}
    (h : keepCell row d = some rec) :
    ∃ v, parsedCell row d = some v ∧ jsGtZero v = true ∧
      rec = ⟨d, jsLookup row ticketHeader, v⟩ := by
  simp only [keepCell] at h
  split at h
  · next v hv =>
    split at h
    · next hg => exact ⟨v, hv, hg, (Option.some.inj h).symm⟩
    · next hg => cases h
  · next hv => cases h

lemma keepCell_date {row : Row} {d : String} {rec : OutputRecord}
    (h : keepCell row d = some rec) : rec.Date = d := by
  obtain ⟨v, _, _, he⟩ := keepCell_some h
  rw [he]

lemma keepCell_pos {row : Row} {d : String} {rec : OutputRecord}
    (h : keepCell row d = some rec) : jsGtZero rec.TimeSpent = true := by
  obtain ⟨v, _, hg, he⟩ := keepCell_some h
  rw [he]
  exact hg

lemma keepCell_ticket {row : Row} {d : String} {rec : OutputRecord}
    (h : keepCell row d = some rec) :
    rec.Ticket = jsLookup row ticketHeader := by
  obtain ⟨v, _, _, he⟩ := keepCell_some h
  rw [he]

lemma cellKeeps_eq_isSome (row : Row) (d : String) :
    cellKeeps row d = (keepCell row d).isSome := by
  simp only [cellKeeps, keepCell]
  cases parsedCell row d with
  | none => rfl
  | some v => by_cases hg : jsGtZero v = true <;> simp [hg]

lemma exists_rowRecords_date_iff (dh : List String) (row : Row) (d : String) :
    (∃ rec ∈ rowRecords dh row, rec.Date = d) ↔ (d ∈ dh ∧ cellKeeps row d = true) := by
  constructor
  · rintro ⟨rec, hrec, hdate⟩
    rw [rowRecords, List.mem_filterMap] at hrec
    obtain ⟨d', hd', hk⟩ := hrec
    have hdd : d' = d := by rw [← hdate, keepCell_date hk]
    subst hdd
    refine ⟨hd', ?_⟩
    rw [cellKeeps_eq_isSome, hk]
    rfl
  · rintro ⟨hd, hck⟩
    rw [cellKeeps_eq_isSome] at hck
    obtain ⟨rec, hrec⟩ := Option.isSome_iff_exists.mp hck
    exact ⟨rec, List.mem_filterMap.mpr ⟨d, hd, hrec⟩, keepCell_date hrec⟩

lemma cellKeeps_iff_exists (row : Row) (d : String) :
    cellKeeps row d = true ↔ ∃ v, parsedCell row d = some v ∧ jsGtZero v = true := by
  simp only [cellKeeps]
  cases parsedCell row d <;> simp

lemma length_rowRecords (dh : List String) (row : Row) :
    (rowRecords dh row).length
      = (dh.filter (fun d => cellKeeps row d)).length := by
  rw [rowRecords, ← List.countP_eq_length_filter]
  induction dh with
  | nil => rfl
  | cons d t ih =>
    rw [List.filterMap_cons, List.countP_cons]
    cases hk : keepCell row d with
    | none =>
      have hck : cellKeeps row d = false := by rw [cellKeeps_eq_isSome, hk]; rfl
      simp [hck, ih]
    | some rec =>
      have hck : cellKeeps row d = true := by rw [cellKeeps_eq_isSome, hk]; rfl
      simp [hck, ih]

lemma length_flatMap_rowRecords (dh : List String) (data : List Row) :
    (data.flatMap (fun row => rowRecords dh row)).length
      = (data.map (fun row => (dh.filter (fun d => cellKeeps row d)).length)).sum := by
  induction data with
  | nil => rfl
  | cons r t ih =>
    rw [List.flatMap_cons, List.length_append, List.map_cons, List.sum_cons,
      length_rowRecords, ih]

/-- C1: for every input and every (row, date-column) cell, `transposeData`
emits an output record for that cell exactly when the permissive numeric
parse of the cell succeeds and the parsed value is strictly greater than
zero; a cell parsing to NaN or to a value ≤ 0 produces no record. -/
theorem transposeData_emits_iff_cell_positive (data : List Row) :
    transposeData data
      = data.flatMap (fun row => rowRecords (dateHeadersOf data) row) ∧
    ∀ row ∈ data, ∀ d ∈ dateHeadersOf data,
      ((∃ rec ∈ rowRecords (dateHeadersOf data) row, rec.Date = d)
        ↔ ∃ v, parsedCell row d = some v ∧ jsGtZero v = true) := by
  refine ⟨transposeData_eq_flatMap data, ?_⟩
  intro row _ d hd
  rw [exists_rowRecords_date_iff, ← cellKeeps_iff_exists]
  simp [hd]

theorem transposeData_emits_iff_cell_positive_witness :
    (∃ rec ∈ rowRecords (dateHeadersOf sampleA)
        [(ticketHeader, "T1"), ("2025-05-01", "2"), ("2025-05-02", "0")],
      rec.Date = "2025-05-01")
      ↔ ∃ v, parsedCell
          [(ticketHeader, "T1"), ("2025-05-01", "2"), ("2025-05-02", "0")]
          "2025-05-01" = some v ∧ jsGtZero v = true :=
  (transposeData_emits_iff_cell_positive sampleA).2
    [(ticketHeader, "T1"), ("2025-05-01", "2"), ("2025-05-02", "0")] (by decide)
    "2025-05-01" (by decide)

/-- C2 counterexample: an input whose only cell holds the string
`Infinity` makes `transposeData` emit a record whose TimeSpent is not
finite (`parseFloat` accepts the `Infinity` literal and +∞ > 0), refuting
the claim that no record with a non-finite TimeSpent ever appears. -/
theorem transposeData_emits_nonfinite_timeSpent :
    (transposeData [[(ticketHeader, "T"), ("2025-05-01", "Infinity")]]).map
        (fun rec => rec.TimeSpent.isFinite) = [false] := by decide

/-- C2 (amended): every record emitted by `transposeData` has a TimeSpent
that was successfully parsed and is strictly positive in JavaScript's
ordering — never NaN, zero, negative, or −∞ — but not necessarily finite,
since a cell reading `Infinity` is accepted and emitted as +∞. -/
theorem transposeData_timeSpent_pos (data : List Row) (rec : OutputRecord)
    (h : rec ∈ transposeData data) :
    jsGtZero rec.TimeSpent = true ∧ rec.TimeSpent ≠ JsNum.inf false := by
  rw [transposeData_eq_flatMap, List.mem_flatMap] at h
  obtain ⟨row, _, hrec⟩ := h
  rw [rowRecords, List.mem_filterMap] at hrec
  obtain ⟨d, _, hk⟩ := hrec
  have hg := keepCell_pos hk
  refine ⟨hg, ?_⟩
  intro hbad
  rw [hbad] at hg
  exact absurd hg (by decide)

theorem transposeData_timeSpent_pos_witness :
    jsGtZero (OutputRecord.mk "2025-05-01" (some "T1") (JsNum.num 2)).TimeSpent = true ∧
    (OutputRecord.mk "2025-05-01" (some "T1") (JsNum.num 2)).TimeSpent ≠ JsNum.inf false :=
  transposeData_timeSpent_pos sampleA ⟨"2025-05-01", some "T1", JsNum.num 2⟩ (by decide)

/-- C3: the number of output records equals the number of (row, date)
pairs whose cell passes the filter; in particular two rows with the same
ticket and the same positive cell each contribute their own record (no
deduplication or summation). -/
theorem transposeData_length_eq_kept_cells (data : List Row) :
    (transposeData data).length
      = (data.map (fun row =>
          ((dateHeadersOf data).filter (fun d => cellKeeps row d)).length)).sum ∧
    transposeData [[(ticketHeader, "T"), ("d", "1")], [(ticketHeader, "T"), ("d", "1")]]
      = [⟨"d", some "T", JsNum.num 1⟩, ⟨"d", some "T", JsNum.num 1⟩] := by
  exact ⟨by rw [transposeData_eq_flatMap, length_flatMap_rowRecords], by decide⟩

/-- C5: the date columns scanned for every row are the first row's keys
minus `Ticket`, in the first row's key order; replacing the rows after the
first never changes them, and every row is scanned against exactly this
column list. -/
theorem dateHeaders_from_first_row_only (first : Row) (rest rest' : List Row) :
    dateHeadersOf (first :: rest)
      = (allHeadersOf first).filter (fun header => header != ticketHeader) ∧
    dateHeadersOf (first :: rest) = dateHeadersOf (first :: rest') ∧
    transposeData (first :: rest)
      = (first :: rest).flatMap
          (fun row => rowRecords (dateHeadersOf (first :: rest)) row) :=
  ⟨rfl, rfl, transposeData_eq_flatMap _⟩

/-- C6: the empty input produces the empty output (the source's early
return); the transform is total, so no error can be raised. -/
theorem transposeData_empty : transposeData [] = [] := rfl

/-- C7: the permissive parse reads a leading numeric prefix: `2h` parses
to 2 and its cell is emitted with TimeSpent 2, while `abc` has no numeric
prefix, parses to NaN, and its cell is excluded. -/
theorem parseFloat_numeric_prefix_scenario :
    jsParseFloat "2h" = some (JsNum.num 2) ∧
    jsParseFloat "abc" = none ∧
    transposeData [[(ticketHeader, "T"), ("d1", "2h"), ("d2", "abc")]]
      = [⟨"d1", some "T", JsNum.num 2⟩] := by decide

/-- C8: every record emitted for a row carrying the `Ticket` key holds
that row's ticket value verbatim — the empty string included — with no
validation or transformation. -/
theorem transposeData_ticket_verbatim (data : List Row) :
    transposeData data
      = data.flatMap (fun row => rowRecords (dateHeadersOf data) row) ∧
    ∀ row ∈ data, ∀ t, jsLookup row ticketHeader = some t →
      ∀ rec ∈ rowRecords (dateHeadersOf data) row, rec.Ticket = some t := by
  refine ⟨transposeData_eq_flatMap data, ?_⟩
  intro row _ t ht rec hrec
  rw [rowRecords, List.mem_filterMap] at hrec
  obtain ⟨d, _, hk⟩ := hrec
  rw [keepCell_ticket hk, ht]

theorem transposeData_ticket_verbatim_witness :
    (OutputRecord.mk "d" (some "") (JsNum.num 1)).Ticket = some "" :=
  (transposeData_ticket_verbatim sampleEmptyTicket).2
    [(ticketHeader, ""), ("d", "1")] (by decide) "" (by decide)
    ⟨"d", some "", JsNum.num 1⟩ (by decide)

/-- C10: a row missing one of the derived date-column keys is skipped
silently for that column: the `undefined` cell parses like a failed parse
and no record with that date is emitted for the row, with no error (the
transform is total). -/
theorem missing_cell_silently_skipped (data : List Row) (row : Row) (d : String)
    (hrow : row ∈ data) (hd : d ∈ dateHeadersOf data)
    (hmiss : jsLookup row d = none) :
    parsedCell row d = none ∧ cellKeeps row d = false ∧
    ¬ ∃ rec ∈ rowRecords (dateHeadersOf data) row, rec.Date = d := by
  have h1 : parsedCell row d = none := by
    simp only [parsedCell, hmiss]
    decide
  have h2 : cellKeeps row d = false := by
    simp only [cellKeeps, h1]
  refine ⟨h1, h2, ?_⟩
  intro hex
  rw [exists_rowRecords_date_iff] at hex
  rw [h2] at hex
  exact absurd hex.2 (by decide)

theorem missing_cell_silently_skipped_witness :
    parsedCell [(ticketHeader, "U"), ("d1", "3")] "d2" = none ∧
    cellKeeps [(ticketHeader, "U"), ("d1", "3")] "d2" = false ∧
    ¬ ∃ rec ∈ rowRecords (dateHeadersOf sampleShort)
        [(ticketHeader, "U"), ("d1", "3")], rec.Date = "d2" :=
  missing_cell_silently_skipped sampleShort [(ticketHeader, "U"), ("d1", "3")] "d2"
    (by decide) (by decide) (by decide)

/-- C9: the output table has exactly the 3 header columns `Date`,
`Ticket`, `Time Spent` in that order, and one row per transposed record in
the transform's order, each row holding the record's fields under those
columns. -/
theorem processCsv_header_and_row_order (records : List Row) :
    (processCsv records).1 = ["Date", "Ticket", "Time Spent"] ∧
    (processCsv records).2 = (transposeData records).map outputRow ∧
    ∀ rec, outputRow rec
      = [CellField.str rec.Date,
         (match rec.Ticket with
          | some t => CellField.str t
          | none => CellField.undef),
         CellField.num rec.TimeSpent] := by
  refine ⟨rfl, rfl, ?_⟩
  rintro ⟨d, t, v⟩
  cases t <;> rfl

lemma le_fst_of_mem_enumFrom {α : Type} :
    ∀ {l : List α} {n : Nat} {q : Nat × α}, q ∈ l.enumFrom n → n ≤ q.1 := by
  intro l
  induction l with
  | nil => intro n q h; cases h
  | cons x t ih =>
    intro n q h
    rw [List.enumFrom_cons, List.mem_cons] at h
    rcases h with rfl | h
    · exact Nat.le_refl n
    · exact Nat.le_of_succ_le (ih h)

lemma getElem_of_mem_enumFrom {α : Type} :
    ∀ {l : List α} {n : Nat} {q : Nat × α}, q ∈ l.enumFrom n →
      l[q.1 - n]? = some q.2 := by
  intro l
  induction l with
  | nil => intro n q h; cases h
  | cons x t ih =>
    intro n q h
    rw [List.enumFrom_cons, List.mem_cons] at h
    rcases h with rfl | h
    · simp
    · have hle := le_fst_of_mem_enumFrom h
      have harith : q.1 - n = (q.1 - (n + 1)) + 1 := by omega
      rw [harith, List.getElem?_cons_succ]
      exact ih h

lemma snd_map_tagged_enumFrom (i : Nat) (row : Row) :
    ∀ (dh : List String) (n : Nat),
      ((dh.enumFrom n).filterMap
          (fun q => (keepCell row q.2).map (fun rec => ((i, q.1), rec)))).map Prod.snd
        = rowRecords dh row := by
  intro dh
  induction dh with
  | nil => intro n; rfl
  | cons d t ih =>
    intro n
    rw [List.enumFrom_cons, List.filterMap_cons, rowRecords, List.filterMap_cons]
    cases hk : keepCell row d with
    | none =>
      simp only [hk, Option.map_none']
      exact ih (n + 1)
    | some rec =>
      simp only [hk, Option.map_some', List.map_cons]
      rw [← rowRecords]
      rw [ih (n + 1)]

lemma taggedRowRecords_map_snd (i : Nat) (dh : List String) (row : Row) :
    (taggedRowRecords i dh row).map Prod.snd = rowRecords dh row :=
  snd_map_tagged_enumFrom i row dh 0

lemma flatMap_tagged_enumFrom (dh : List String) :
    ∀ (data : List Row) (n : Nat),
      ((data.enumFrom n).flatMap (fun q => taggedRowRecords q.1 dh q.2)).map Prod.snd
        = data.flatMap (fun row => rowRecords dh row) := by
  intro data
  induction data with
  | nil => intro n; rfl
  | cons r t ih =>
    intro n
    rw [List.enumFrom_cons, List.flatMap_cons, List.flatMap_cons, List.map_append]
    rw [taggedRowRecords_map_snd, ih (n + 1)]

lemma taggedRecords_map_snd (data : List Row) :
    (taggedRecords data).map Prod.snd = transposeData data := by
  rw [transposeData_eq_flatMap, taggedRecords]
  exact flatMap_tagged_enumFrom (dateHeadersOf data) data 0

lemma mem_taggedRowRecords_fst {i : Nat} {dh : List String} {row : Row}
    {p : (Nat × Nat) × OutputRecord} (hp : p ∈ taggedRowRecords i dh row) :
    p.1.1 = i := by
  rw [taggedRowRecords, List.mem_filterMap] at hp
  obtain ⟨a, _, ha⟩ := hp
  cases hk : keepCell row a.2 with
  | none => rw [hk, Option.map_none'] at ha; cases ha
  | some rec =>
    rw [hk, Option.map_some'] at ha
    cases ha
    rfl

lemma snd_lt_of_mem_tagged_enumFrom {i : Nat} {row : Row} :
    ∀ {dh : List String} {n : Nat} {p : (Nat × Nat) × OutputRecord},
      p ∈ (dh.enumFrom n).filterMap
          (fun q => (keepCell row q.2).map (fun rec => ((i, q.1), rec))) →
      n ≤ p.1.2 := by
  intro dh n p hp
  rw [List.mem_filterMap] at hp
  obtain ⟨a, ha, heq⟩ := hp
  cases hk : keepCell row a.2 with
  | none => rw [hk, Option.map_none'] at heq; cases heq
  | some rec =>
    rw [hk, Option.map_some'] at heq
    cases heq
    exact le_fst_of_mem_enumFrom ha

lemma tagged_enumFrom_pairwise (i : Nat) (row : Row) :
    ∀ (dh : List String) (n : Nat),
      ((dh.enumFrom n).filterMap
          (fun q => (keepCell row q.2).map (fun rec => ((i, q.1), rec)))).Pairwise
        (fun a b => a.1.2 < b.1.2) := by
  intro dh
  induction dh with
  | nil => intro n; exact List.Pairwise.nil
  | cons d t ih =>
    intro n
    rw [List.enumFrom_cons, List.filterMap_cons]
    cases hk : keepCell row d with
    | none =>
      simp only [hk, Option.map_none']
      exact ih (n + 1)
    | some rec =>
      simp only [hk, Option.map_some']
      refine List.Pairwise.cons ?_ (ih (n + 1))
      intro b hb
      have hle := snd_lt_of_mem_tagged_enumFrom hb
      show n < b.1.2
      omega

lemma taggedRowRecords_pairwise (i : Nat) (dh : List String) (row : Row) :
    (taggedRowRecords i dh row).Pairwise (fun a b => a.1.2 < b.1.2) :=
  tagged_enumFrom_pairwise i row dh 0

lemma taggedRecords_pairwise_aux (dh : List String) :
    ∀ (data : List Row) (n : Nat),
      ((data.enumFrom n).flatMap (fun q => taggedRowRecords q.1 dh q.2)).Pairwise tagLt := by
  intro data
  induction data with
  | nil => intro n; exact List.Pairwise.nil
  | cons r t ih =>
    intro n
    rw [List.enumFrom_cons, List.flatMap_cons, List.pairwise_append]
    refine ⟨?_, ih (n + 1), ?_⟩
    · refine List.Pairwise.imp_of_mem ?_ (taggedRowRecords_pairwise n dh r)
      intro a b ha hb hab
      right
      exact ⟨by rw [mem_taggedRowRecords_fst ha, mem_taggedRowRecords_fst hb], hab⟩
    · intro a ha b hb
      left
      have ha1 : a.1.1 = n := mem_taggedRowRecords_fst ha
      rw [List.mem_flatMap] at hb
      obtain ⟨q, hq, hbq⟩ := hb
      have hb1 : b.1.1 = q.1 := mem_taggedRowRecords_fst hbq
      have hq1 : n + 1 ≤ q.1 := le_fst_of_mem_enumFrom hq
      omega

/-- C4: the output records appear exactly in nested-iteration order —
tagging each record of `transposeData` with the (row index, date-column
index) it came from yields a list whose tags are strictly increasing in
the lexicographic order (outer: input row order; inner: the date-column
order derived from the first row), and each tag points at the very cell
that produced the record; nothing is sorted or deduplicated. -/
theorem transposeData_order_preserving (data : List Row) :
    (taggedRecords data).map Prod.snd = transposeData data ∧
    (taggedRecords data).Pairwise tagLt ∧
    ∀ p ∈ taggedRecords data,
      ∃ row d, data[p.1.1]? = some row ∧
        (dateHeadersOf data)[p.1.2]? = some d ∧ keepCell row d = some p.2 := by
  refine ⟨taggedRecords_map_snd data, ?_, ?_⟩
  · exact taggedRecords_pairwise_aux (dateHeadersOf data) data 0
  · intro p hp
    rw [taggedRecords, List.mem_flatMap] at hp
    obtain ⟨q, hq, hpq⟩ := hp
    have hrow : data[q.1 - 0]? = some q.2 := getElem_of_mem_enumFrom hq
    rw [Nat.sub_zero] at hrow
    rw [taggedRowRecords, List.mem_filterMap] at hpq
    obtain ⟨a, ha, hka⟩ := hpq
    have hdh : (dateHeadersOf data)[a.1 - 0]? = some a.2 := getElem_of_mem_enumFrom ha
    rw [Nat.sub_zero] at hdh
    cases hk : keepCell q.2 a.2 with
    | none => rw [hk, Option.map_none'] at hka; cases hka
    | some rec =>
      rw [hk, Option.map_some'] at hka
      cases hka
      exact ⟨q.2, a.2, hrow, hdh, hk⟩

theorem transposeData_order_preserving_witness :
    (taggedRecords sampleA).map Prod.snd = transposeData sampleA ∧
    (∃ row d, sampleA[(0 : Nat)]? = some row ∧
      (dateHeadersOf sampleA)[(0 : Nat)]? = some d ∧
      keepCell row d = some (OutputRecord.mk "2025-05-01" (some "T1") (JsNum.num 2))) :=
  ⟨(transposeData_order_preserving sampleA).1,
   (transposeData_order_preserving sampleA).2.2
     ((0, 0), OutputRecord.mk "2025-05-01" (some "T1") (JsNum.num 2)) (by decide)⟩
